import Mathlib

/-!
Shallow embedding of `src/pyobo/sources/kegg/pathway.py` (KEGG Pathways → OBO
converter) and proofs about its record-linkage and graph-assembly algorithm.

File contents are modelled as lists of lines (`List String`); Python string
operations are modelled character-exactly on `List Char`.  Python exceptions
are modelled by the `PyError` type and `Except`; the `tqdm.write` diagnostic
stream is modelled as an explicit `List String` log component.
-/

/-- Python exception classes that the embedded code can raise.  The
`malformedIdentifier` constructor stands for the spec-level error class
`MalformedIdentifier`; the source code itself never raises it. -/
inductive PyError where
  | valueError (msg : String)
  | attributeError (msg : String)
  | malformedIdentifier
deriving DecidableEq, Repr

/-- Python whitespace characters recognised by `str.strip`. -/
def isPyWs (c : Char) : Bool :=
  c == ' ' || c == '\t' || c == '\n' || c == '\r' || c == '\x0b' || c == '\x0c'

/-- `str.strip()` on a character list: drop whitespace from both ends. -/
def pyStripL (cs : List Char) : List Char :=
  ((cs.dropWhile isPyWs).reverse.dropWhile isPyWs).reverse

/-- `str.strip()`. -/
def pyStrip (s : String) : String :=
  String.mk (pyStripL s.toList)

/-- `str.split` on the tab character, character-exact: every tab separates
two (possibly empty) fields, as in Python `s.split(chr(9))`. -/
def splitTabL : List Char → List (List Char)
  | [] => [[]]
  | c :: cs =>
    if c = '\t' then [] :: splitTabL cs
    else
      match splitTabL cs with
      | [] => [[c]]
      | p :: ps => (c :: p) :: ps

/-- `line.split` on tab, producing strings. -/
def pySplit (s : String) : List String :=
  (splitTabL s.toList).map String.mk

/-- Python slicing `s[n:]` (character based). -/
def pySliceFrom (s : String) (n : Nat) : String :=
  String.mk (s.toList.drop n)

/-- Python string comparison on character lists: lexicographic by code
point, the order `sorted` uses on `str`. -/
def lexLe : List Char → List Char → Bool
  | [], _ => true
  | _ :: _, [] => false
  | a :: as, b :: bs =>
    if a.toNat < b.toNat then true
    else if b.toNat < a.toNat then false
    else lexLe as bs

/-- Python `<=` on strings. -/
def pyLe (a b : String) : Bool := lexLe a.toList b.toList

/-- One step of insertion sort with respect to `pyLe`. -/
def pyInsert (x : String) : List String → List String
  | [] => [x]
  | y :: ys => if pyLe x y then x :: y :: ys else y :: pyInsert x ys

/-- Python `sorted` on a list of strings: a stable sort ascending by code
point (insertion sort; stability is indifferent because equal strings are
identical). -/
def pySorted (l : List String) : List String := l.foldr pyInsert []

/-- `str.isnumeric` for one character.  KEGG pathway codes are ASCII, on
which Python `isnumeric` coincides with being a decimal digit. -/
def isNumericChar (c : Char) : Bool := c.isDigit

/-- `[i for i, e in enumerate(s) if e.isnumeric()]`: the indices of the
numeric characters of `s`, in increasing order. -/
def numericIndices (s : String) : List Nat :=
  ((s.toList.enum.filter (fun p => isNumericChar p.2)).map Prod.fst)

/-- Python `min` over a list of naturals: raises
`ValueError: min() arg is an empty sequence` on the empty list. -/
def pyMin : List Nat → Except PyError Nat
  | [] => .error (.valueError "min() arg is an empty sequence")
  | x :: xs => .ok (xs.foldl Nat.min x)

/-- `_start = min(i for i, e in enumerate(pathway_id) if e.isnumeric())`
(pathway.py line 91). -/
def _start (pathway_id : String) : Except PyError Nat :=
  pyMin (numericIndices pathway_id)

/-- The generic reference-map code derivation inlined at pathway.py lines
91-103: take the suffix of the code from its first numeric character and
prepend the literal `map`. -/
def genericMapCode (pathway_id : String) : Except PyError String :=
  match _start pathway_id with
  | .error e => .error e
  | .ok i => .ok ("map" ++ pySliceFrom pathway_id i)

/-- `Reference` from `pyobo.struct`: identity of any entity.  The Python
attribute named like the word for a leading namespace marker is called
`pfx` here because Lean reserves that word. -/
structure Reference where
  pfx : String
  identifier : String
  name : Option String := none
deriving DecidableEq, Repr

/-- `TypeDef` from `pyobo.struct`, reduced to the identity of its
reference: the fixed relationship vocabulary. -/
structure TypeDef where
  curie : String
deriving DecidableEq, Repr

/-- `species_specific` typedef declared at module top level. -/
def species_specific : TypeDef := ⟨"speciesSpecific"⟩

/-- `from_kegg_species` typedef (`inKeggTaxon`) declared at module top level. -/
def from_kegg_species : TypeDef := ⟨"inKeggTaxon"⟩

/-- `has_part` typedef imported from `pyobo.struct`. -/
def has_part : TypeDef := ⟨"has_part"⟩

/-- `Term` from `pyobo.struct`: one Reference as identity, an ordered list
of outgoing typed relationships, and an optional species attribute. -/
structure Term where
  reference : Reference
  relationships : List (TypeDef × Reference) := []
  species : Option String := none
deriving DecidableEq, Repr

/-- `Term.append_relationship`: append one typed edge. -/
def Term.append_relationship (t : Term) (td : TypeDef) (r : Reference) : Term :=
  { t with relationships := t.relationships ++ [(td, r)] }

/-- `Term.set_species`: record the taxonomy identifier of the term. -/
def Term.set_species (t : Term) (taxonomy_id : String) : Term :=
  { t with species := some taxonomy_id }

/-- `KEGGGenome` from `pyobo.sources.kegg.genome` (module not under src):
identifier, display name, optional taxonomy id. -/
structure KEGGGenome where
  identifier : String
  name : String
  taxonomy_id : Option String := none
deriving DecidableEq, Repr

/-- Modelled from the spec: `KEGGGenome.get_reference`, the method of the
genome-list collaborator that returns the Reference of the genome itself
(the module `pyobo.sources.kegg.genome` is not under src). -/
def KEGGGenome.get_reference (g : KEGGGenome) : Reference :=
  { pfx := "kegg.genome", identifier := g.identifier, name := some g.name }

/-- `KEGG_PATHWAY_PREFIX` from `pyobo.sources.kegg.api`: the namespace of
pathway terms, visible in the diagnostic string of the merge step. -/
def keggPathwayPfx : String := "kegg.pathway"

/-! ## The link-table parse, `_get_link_pathway_map` (pathway.py lines 56-63) -/

/-- `rv[k].append(v)` on a `defaultdict(list)` kept in insertion order:
append `v` to the list at key `k`, creating the key at the end if new. -/
def ddAppend : List (String × List String) → String → String → List (String × List String)
  | [], k, v => [(k, [v])]
  | (k₀, vs) :: rest, k, v =>
    if k₀ = k then (k₀, vs ++ [v]) :: rest
    else (k₀, vs) :: ddAppend rest k v

/-- The line loop of `_get_link_pathway_map`.  Each line is
`protein TAB pathway`; the code strips the 5-character marker from the
pathway field and then appends THE PATHWAY CODE ITSELF (not the parsed
protein field, which is left unused) to the group of that pathway — this
mirrors `rv[pathway].append(pathway)` in the source exactly. -/
def linkLinesToMap : List String → List (String × List String) → Except PyError (List (String × List String))
  | [], rv => .ok rv
  | line :: rest, rv =>
    match pySplit (pyStrip line) with
    | [protein, pathway] =>
      let _unused := protein
      let pathway := pySliceFrom pathway 5
      linkLinesToMap rest (ddAppend rv pathway pathway)
    | _ => .error (.valueError "not enough values to unpack")

/-- `_get_link_pathway_map`, with the file given as its list of lines:
group link lines by stripped pathway code, then sort each group. -/
def _get_link_pathway_map (lines : List String) : Except PyError (List (String × List String)) :=
  match linkLinesToMap lines [] with
  | .error e => .error e
  | .ok rv => .ok (rv.map (fun kv => (kv.1, pySorted kv.2)))

/-! ## The listing parse, first half of `_iter_genome_terms` (lines 83-110) -/

/-- The body of the listing-parse loop for one line (pathway.py lines
86-110): split on tab, strip the parts, strip the 5-character marker from
the code field, derive the generic map code, build the Term and attach its
`species_specific` and `from_kegg_species` edges and, when the genome has a
taxonomy id, its species attribute. -/
def termOfLine (line : String) (kegg_genome : KEGGGenome) : Except PyError Term :=
  match (pySplit (pyStrip line)).map pyStrip with
  | [code_field, name] =>
    let pathway_id := pySliceFrom code_field 5
    match genericMapCode pathway_id with
    | .error e => .error e
    | .ok mc =>
      let term : Term :=
        { reference := { pfx := keggPathwayPfx, identifier := pathway_id, name := some name } }
      let term := term.append_relationship species_specific
        { pfx := keggPathwayPfx, identifier := mc }
      let term := term.append_relationship from_kegg_species kegg_genome.get_reference
      let term :=
        match kegg_genome.taxonomy_id with
        | some tax => term.set_species tax
        | none => term
      .ok term
  | _ => .error (.valueError "not enough values to unpack")

/-- `terms[pathway_id] = term` on a Python dict kept as an insertion-ordered
association list: replace in place if the key exists, else append. -/
def dictInsert : List (String × Term) → String → Term → List (String × Term)
  | [], k, t => [(k, t)]
  | (k₀, t₀) :: rest, k, t =>
    if k₀ = k then (k₀, t) :: rest
    else (k₀, t₀) :: dictInsert rest k t

/-- `d.get(k)` on an insertion-ordered association list. -/
def dictLookup (k : String) : List (String × α) → Option α
  | [] => none
  | (k₀, v) :: rest => if k₀ = k then some v else dictLookup k rest

/-- The listing-parse loop: fold `termOfLine` over the lines, keying each
Term by its stripped pathway code. -/
def buildTermsGo (kegg_genome : KEGGGenome) : List String → List (String × Term) → Except PyError (List (String × Term))
  | [], d => .ok d
  | line :: rest, d =>
    match termOfLine line kegg_genome with
    | .error e => .error e
    | .ok t => buildTermsGo kegg_genome rest (dictInsert d t.reference.identifier t)

/-- The per-genome Term mapping after the listing parse
(`list_pathway_lines = [line.strip() for line in file]`, then the loop). -/
def buildTerms (lines : List String) (kegg_genome : KEGGGenome) : Except PyError (List (String × Term)) :=
  buildTermsGo kegg_genome (lines.map pyStrip) []

/-! ## The merge step, second half of `_iter_genome_terms` (lines 112-120) -/

/-- `for protein_id in protein_ids: term.append_relationship(has_part, ...)`:
append one `has_part` edge per entry of `protein_ids`, in order. -/
def appendGenes (t : Term) (protein_ids : List String) : Term :=
  protein_ids.foldl
    (fun acc protein_id =>
      acc.append_relationship has_part { pfx := "kegg.genes", identifier := protein_id })
    t

/-- Mutating the Term object found in the dict: update the entry at key
`k` by `f`. -/
def dictUpdate (d : List (String × Term)) (k : String) (f : Term → Term) : List (String × Term) :=
  d.map (fun kv => if kv.1 = k then (kv.1, f kv.2) else kv)

/-- The merge loop of `_iter_genome_terms` (lines 112-120).  When the
pathway code is absent from the Term mapping the source writes the
could-not-find diagnostic but does NOT skip: the following loop calls
`append_relationship` on `None`, raising `AttributeError` as soon as the
group has at least one entry (and every group built by
`_get_link_pathway_map` is nonempty).  This is mirrored exactly. -/
def mergeLink (d : List (String × Term)) : List (String × List String) → List String × Except PyError (List (String × Term))
  | [] => ([], .ok d)
  | (pathway_id, protein_ids) :: rest =>
    match dictLookup pathway_id d with
    | none =>
      let msg := "could not find kegg.pathway:" ++ pathway_id
      match protein_ids with
      | [] =>
        let r := mergeLink d rest
        (msg :: r.1, r.2)
      | _ :: _ =>
        ([msg], .error (.attributeError "NoneType object has no attribute append_relationship"))
    | some _ =>
      mergeLink (dictUpdate d pathway_id (fun t => appendGenes t protein_ids)) rest

/-- `_iter_genome_terms`, with both files given as their lists of lines.
First component: the diagnostics written to the progress stream.  Second:
either the list of Terms in insertion order, or the Python exception. -/
def _iter_genome_terms (list_pathway_lines link_pathway_lines : List String) (kegg_genome : KEGGGenome) : List String × Except PyError (List Term) :=
  match buildTerms list_pathway_lines kegg_genome with
  | .error e => ([], .error e)
  | .ok d =>
    match _get_link_pathway_map link_pathway_lines with
    | .error e => ([], .error e)
    | .ok lm =>
      match mergeLink d lm with
      | (log, .error e) => (log, .error e)
      | (log, .ok d₂) => (log, .ok (d₂.map Prod.snd))

/-! ## Map Loader, Driver and Assembler (lines 45-53, 66-74, 125-141) -/

/-- `_iter_map_terms`: one identity-only Term per entry of the global
pathway catalog (given as the item list of `ensure_list_pathways()`),
in catalog order. -/
def _iter_map_terms (catalog : List (String × String)) : List Term :=
  catalog.map
    (fun kv =>
      { reference := { pfx := keggPathwayPfx, identifier := kv.1, name := some kv.2 } })

/-- Modelled from the spec: the outcome of the per-genome file fetch
(`ensure_list_pathway_genome` / `ensure_link_pathway_genome` of
`pyobo.sources.kegg.api`, a module not under src).  The fetcher either
returns the two files (carried here directly as their line lists) or
raises an HTTP error with a status code and the failing locator, a 404
signalling that no data is published for the organism. -/
inductive FetchResult where
  | ok (list_pathway_lines link_pathway_lines : List String)
  | httpError (code : Nat) (url : String)
deriving DecidableEq, Repr

/-- The diagnostic written by `iter_kegg_pathway_paths` for a non-404 HTTP
error (pathway.py lines 133-139). -/
def httpErrMsg (g : KEGGGenome) (code : Nat) (url : String) : String :=
  let msg := "[HTTP " ++ toString code ++ "] Error downloading " ++ g.identifier ++ " (" ++ g.name
  match g.taxonomy_id with
  | none => msg ++ "): " ++ url
  | some tax => msg ++ "; taxonomy:" ++ tax ++ "): " ++ url

/-- `iter_kegg_pathway_paths` over a given enumeration of genomes with
their fetch outcomes: yield the triples for successful fetches; report and
skip non-404 HTTP errors; skip 404 silently.  First component: the yielded
triples, second: the diagnostics. -/
def iter_kegg_pathway_paths : List (KEGGGenome × FetchResult) → List (KEGGGenome × List String × List String) × List String
  | [] => ([], [])
  | (g, FetchResult.ok ll kl) :: rest =>
    let r := iter_kegg_pathway_paths rest
    ((g, ll, kl) :: r.1, r.2)
  | (g, FetchResult.httpError code url) :: rest =>
    let r := iter_kegg_pathway_paths rest
    if code ≠ 404 then (r.1, httpErrMsg g code url :: r.2)
    else r

/-- The genome loop of `iter_terms`: run `_iter_genome_terms` on every
yielded triple and concatenate the term sequences, propagating the first
Python exception. -/
def runGenomes : List (KEGGGenome × List String × List String) → List String × Except PyError (List Term)
  | [] => ([], .ok [])
  | (g, ll, kl) :: rest =>
    match _iter_genome_terms ll kl g with
    | (log, .error e) => (log, .error e)
    | (log, .ok ts) =>
      match runGenomes rest with
      | (log₂, .error e) => (log ++ log₂, .error e)
      | (log₂, .ok ts₂) => (log ++ log₂, .ok (ts ++ ts₂))

/-- `iter_terms`: the map-loader terms followed by the per-genome terms. -/
def iter_terms (catalog : List (String × String)) (genomes : List (KEGGGenome × FetchResult)) : List String × Except PyError (List Term) :=
  let driver := iter_kegg_pathway_paths genomes
  match runGenomes driver.1 with
  | (log, .error e) => (driver.2 ++ log, .error e)
  | (log, .ok ts) => (driver.2 ++ log, .ok (_iter_map_terms catalog ++ ts))

/-! ## Derived notions used in the statements -/

/-- The identifiers targeted by the `has_part` edges of a Term, in edge
order. -/
def hasPartTargets (t : Term) : List String :=
  (t.relationships.filter (fun p => p.1 == has_part)).map (fun p => p.2.identifier)

/-- The Term with its `has_part` edges removed (used to speak about the
part of a Term that the listing parse built). -/
def stripHasPart (t : Term) : Term :=
  { t with relationships := t.relationships.filter (fun p => p.1 != has_part) }

/-- `needle` occurs as a contiguous substring of `hay`. -/
def containsStr (hay needle : String) : Prop :=
  ∃ a b : List Char, hay.toList = a ++ needle.toList ++ b

/-- The shape every Term built by the listing parse of `_iter_genome_terms`
has when keyed by `k`: identity `k` in the pathway namespace, exactly the
`species_specific` edge to the derived generic map code followed by the
`from_kegg_species` edge to the genome Reference, and the species
attribute exactly when the genome has a taxonomy id. -/
def goodTerm (g : KEGGGenome) (k : String) (t : Term) : Prop :=
  t.reference.identifier = k ∧
  t.reference.pfx = keggPathwayPfx ∧
  t.species = g.taxonomy_id ∧
  ∃ mc, genericMapCode k = .ok mc ∧
    t.relationships =
      [(species_specific, { pfx := keggPathwayPfx, identifier := mc, name := none }),
       (from_kegg_species, g.get_reference)]

/-- The stripped pathway code of a listing line, when the line parses. -/
def parsedId (line : String) : Option String :=
  match (pySplit (pyStrip line)).map pyStrip with
  | [code_field, _] => some (pySliceFrom code_field 5)
  | _ => none

/-- Among the (stripped) listing lines, the last one whose stripped
pathway code is `k`, turned into its Term. -/
def lastTermFor (g : KEGGGenome) (lines : List String) (k : String) : Option Term :=
  ((lines.filter (fun l => parsedId l == some k)).getLast?).bind
    (fun l => (termOfLine l g).toOption)

/-- Genome fixture with a known taxonomy id, used by the witnesses. -/
def genomeHsa : KEGGGenome :=
  { identifier := "hsa", name := "Homo sapiens", taxonomy_id := some "9606" }

/-- Genome fixture without a taxonomy id, used by the witnesses. -/
def genomeXyz : KEGGGenome :=
  { identifier := "xyz", name := "Xenomonas yzensis", taxonomy_id := none }

/-- Genome fixture used by the witnesses. -/
def genomeEco : KEGGGenome :=
  { identifier := "eco", name := "Escherichia coli K-12 MG1655", taxonomy_id := some "511145" }

/-- Genome fixture used by the witnesses. -/
def genomeSce : KEGGGenome :=
  { identifier := "sce", name := "Saccharomyces cerevisiae", taxonomy_id := some "559292" }

/-- Genome fixture used by the counterexamples. -/
def genomeMmu : KEGGGenome :=
  { identifier := "mmu", name := "Mus musculus", taxonomy_id := some "10090" }

/-- Genome fixture used by the counterexamples. -/
def genomeRno : KEGGGenome :=
  { identifier := "rno", name := "Rattus norvegicus", taxonomy_id := some "10116" }

/-- Expected output Term of the C3 witness run. -/
def termEco00010 : Term :=
  { reference := { pfx := "kegg.pathway", identifier := "eco00010", name := some "Glycolysis" },
    relationships :=
      [(species_specific, { pfx := "kegg.pathway", identifier := "map00010" }),
       (from_kegg_species, { pfx := "kegg.genome", identifier := "eco", name := some "Escherichia coli K-12 MG1655" }),
       (has_part, { pfx := "kegg.genes", identifier := "eco00010" })],
    species := some "511145" }

/-- Expected output Term of the C7 witness run (genome without taxonomy). -/
def termXyz00020 : Term :=
  { reference := { pfx := "kegg.pathway", identifier := "xyz00020", name := some "Citrate cycle" },
    relationships :=
      [(species_specific, { pfx := "kegg.pathway", identifier := "map00020" }),
       (from_kegg_species, { pfx := "kegg.genome", identifier := "xyz", name := some "Xenomonas yzensis" })],
    species := none }

/-- Expected identity-only Term of the C8 witness catalog. -/
def termMap00030 : Term :=
  { reference := { pfx := "kegg.pathway", identifier := "map00030", name := some "Pentose phosphate pathway" } }

/-- Expected per-genome Term of the C8 witness run. -/
def termEco00020 : Term :=
  { reference := { pfx := "kegg.pathway", identifier := "eco00020", name := some "Citrate cycle (TCA cycle)" },
    relationships :=
      [(species_specific, { pfx := "kegg.pathway", identifier := "map00020" }),
       (from_kegg_species, { pfx := "kegg.genome", identifier := "eco", name := some "Escherichia coli K-12 MG1655" }),
       (has_part, { pfx := "kegg.genes", identifier := "eco00020" })],
    species := some "511145" }

/-- Expected output Term of the C10 witness run: built from the LAST of
the two listing lines that share the code sce00010. -/
def termSce00010 : Term :=
  { reference := { pfx := "kegg.pathway", identifier := "sce00010", name := some "Glycolysis new" },
    relationships :=
      [(species_specific, { pfx := "kegg.pathway", identifier := "map00010" }),
       (from_kegg_species, { pfx := "kegg.genome", identifier := "sce", name := some "Saccharomyces cerevisiae" })],
    species := some "559292" }

/-- Generalisation of `numericIndices` to an enumeration starting at `n`,
used to reason about the `min`-over-`enumerate` idiom by induction. -/
def idxFrom (n : Nat) (cs : List Char) : List Nat :=
  ((List.enumFrom n cs).filter (fun p => isNumericChar p.2)).map Prod.fst

/-! ## Lemmas about the generic-map-code derivation -/

theorem idxFrom_nil (n : Nat) (cs : List Char)
    (h : ∀ c ∈ cs, isNumericChar c = false) : idxFrom n cs = [] := by
  induction cs generalizing n with
  | nil => rfl
  | cons c cs ih =>
    have hc := h c (by simp)
    simp only [idxFrom, List.enumFrom_cons, List.filter_cons, hc]
    exact ih (n + 1) (fun x hx => h x (by simp [hx]))

theorem idxFrom_ge (n : Nat) (cs : List Char) : ∀ x ∈ idxFrom n cs, n ≤ x := by
  induction cs generalizing n with
  | nil => intro x hx; simp [idxFrom] at hx
  | cons c cs ih =>
    intro x hx
    simp only [idxFrom, List.enumFrom_cons, List.filter_cons] at hx
    by_cases hc : isNumericChar c
    · simp only [hc, if_true, List.map_cons, List.mem_cons] at hx
      rcases hx with rfl | hx
      · exact le_refl x
      · exact Nat.le_of_succ_le (ih (n + 1) x hx)
    · simp only [hc, if_false] at hx
      exact Nat.le_of_succ_le (ih (n + 1) x hx)

theorem foldl_min_self (xs : List Nat) : ∀ n, (∀ x ∈ xs, n ≤ x) → xs.foldl Nat.min n = n := by
  induction xs with
  | nil => intro n _; rfl
  | cons x xs ih =>
    intro n h
    have hx : Nat.min n x = n := Nat.min_eq_left (h x (by simp))
    simp only [List.foldl_cons, hx]
    exact ih n (fun y hy => h y (by simp [hy]))

theorem pyMin_idxFrom (cs : List Char) :
    ∀ n, cs.any isNumericChar = true →
      pyMin (idxFrom n cs) = .ok (n + cs.findIdx isNumericChar) := by
  induction cs with
  | nil => intro n h; simp at h
  | cons c cs ih =>
    intro n h
    by_cases hc : isNumericChar c
    · have h1 : idxFrom n (c :: cs) = n :: idxFrom (n + 1) cs := by
        simp [idxFrom, List.enumFrom_cons, List.filter_cons, hc]
      have h2 : (c :: cs).findIdx isNumericChar = 0 := by
        simp [List.findIdx_cons, hc]
      have h3 : (idxFrom (n + 1) cs).foldl Nat.min n = n :=
        foldl_min_self _ n
          (fun x hx => Nat.le_of_succ_le (idxFrom_ge (n + 1) cs x hx))
      simp [pyMin, h1, h2, h3]
    · have h1 : idxFrom n (c :: cs) = idxFrom (n + 1) cs := by
        simp [idxFrom, List.enumFrom_cons, List.filter_cons, hc]
      have hany : cs.any isNumericChar = true := by
        simp only [List.any_cons, hc, Bool.false_or] at h
        exact h
      have h2 : (c :: cs).findIdx isNumericChar = cs.findIdx isNumericChar + 1 := by
        simp [List.findIdx_cons, hc]
      rw [h1, ih (n + 1) hany, h2]
      congr 1
      omega

theorem numericIndices_eq_idxFrom (s : String) : numericIndices s = idxFrom 0 s.toList := rfl

theorem genericMapCode_of_any (s : String) (h : s.toList.any isNumericChar = true) :
    genericMapCode s = .ok ("map" ++ pySliceFrom s (s.toList.findIdx isNumericChar)) := by
  have h1 : _start s = .ok (s.toList.findIdx isNumericChar) := by
    have := pyMin_idxFrom s.toList 0 h
    simpa [_start, numericIndices_eq_idxFrom] using this
  simp [genericMapCode, h1]

theorem genericMapCode_of_none (s : String)
    (h : ∀ c ∈ s.toList, isNumericChar c = false) :
    genericMapCode s = .error (.valueError "min() arg is an empty sequence") := by
  have h1 : numericIndices s = [] := by
    rw [numericIndices_eq_idxFrom]
    exact idxFrom_nil 0 s.toList h
  simp [genericMapCode, _start, h1, pyMin]

/-! ## Lemmas about the insertion-ordered dictionaries -/

theorem dictLookup_none_iff (k : String) (d : List (String × α)) :
    dictLookup k d = none ↔ k ∉ d.map Prod.fst := by
  induction d with
  | nil => simp [dictLookup]
  | cons kv rest ih =>
    obtain ⟨k₀, v₀⟩ := kv
    by_cases hk : k₀ = k
    · subst hk; simp [dictLookup]
    · simp [dictLookup, hk, ih, Ne.symm hk]

theorem dictLookup_mem {k : String} {d : List (String × α)} {v : α}
    (h : dictLookup k d = some v) : (k, v) ∈ d := by
  induction d with
  | nil => simp [dictLookup] at h
  | cons kv rest ih =>
    obtain ⟨k₀, v₀⟩ := kv
    by_cases hk : k₀ = k
    · subst hk
      simp [dictLookup] at h
      subst h; simp
    · simp [dictLookup, hk] at h
      exact List.mem_cons_of_mem _ (ih h)

theorem mem_dictLookup {k : String} {d : List (String × α)} {v : α}
    (hd : (d.map Prod.fst).Nodup) (h : (k, v) ∈ d) : dictLookup k d = some v := by
  induction d with
  | nil => simp at h
  | cons kv rest ih =>
    obtain ⟨k₀, v₀⟩ := kv
    simp only [List.map_cons, List.nodup_cons] at hd
    rcases List.mem_cons.mp h with heq | hmem
    · injection heq with h1 h2
      subst h1; subst h2
      simp [dictLookup]
    · have hk : k₀ ≠ k := by
        intro hk
        subst hk
        exact hd.1 (List.mem_map_of_mem Prod.fst hmem)
      simp [dictLookup, hk, ih hd.2 hmem]

theorem dictInsert_mem {d : List (String × Term)} {k : String} {t : Term}
    {k' : String} {t' : Term} (h : (k', t') ∈ dictInsert d k t) :
    (k', t') ∈ d ∨ (k' = k ∧ t' = t) := by
  induction d with
  | nil =>
    simp only [dictInsert, List.mem_singleton] at h
    injection h with h1 h2
    exact Or.inr ⟨h1, h2⟩
  | cons kv rest ih =>
    obtain ⟨k₀, t₀⟩ := kv
    by_cases hk : k₀ = k
    · subst hk
      simp only [dictInsert, if_pos rfl] at h
      rcases List.mem_cons.mp h with heq | hm
      · injection heq with h1 h2
        exact Or.inr ⟨h1, h2⟩
      · exact Or.inl (List.mem_cons_of_mem _ hm)
    · simp only [dictInsert, if_neg hk] at h
      rcases List.mem_cons.mp h with heq | hm
      · exact Or.inl (List.mem_cons.mpr (Or.inl heq))
      · rcases ih hm with h1 | h2
        · exact Or.inl (List.mem_cons_of_mem _ h1)
        · exact Or.inr h2

theorem dictInsert_keys_mem (d : List (String × Term)) (k : String) (t : Term) (k' : String) :
    k' ∈ (dictInsert d k t).map Prod.fst ↔ k' ∈ d.map Prod.fst ∨ k' = k := by
  induction d with
  | nil => simp [dictInsert]
  | cons kv rest ih =>
    obtain ⟨k₀, t₀⟩ := kv
    by_cases hk : k₀ = k
    · subst hk; simp [dictInsert]; tauto
    · simp [dictInsert, hk, ih]; tauto

theorem dictInsert_nodup {d : List (String × Term)} (k : String) (t : Term)
    (hd : (d.map Prod.fst).Nodup) : ((dictInsert d k t).map Prod.fst).Nodup := by
  induction d with
  | nil => simp [dictInsert]
  | cons kv rest ih =>
    obtain ⟨k₀, t₀⟩ := kv
    simp only [List.map_cons, List.nodup_cons] at hd
    simp only [dictInsert]
    by_cases hk : k₀ = k
    · rw [if_pos hk]
      simp only [List.map_cons, List.nodup_cons]
      exact ⟨hd.1, hd.2⟩
    · rw [if_neg hk]
      simp only [List.map_cons, List.nodup_cons]
      constructor
      · intro hmem
        rcases (dictInsert_keys_mem rest k t k₀).mp hmem with h1 | h2
        · exact hd.1 h1
        · exact hk h2
      · exact ih hd.2

theorem dictInsert_lookup (d : List (String × Term)) (k : String) (t : Term) (k' : String) :
    dictLookup k' (dictInsert d k t) = if k' = k then some t else dictLookup k' d := by
  induction d with
  | nil =>
    simp only [dictInsert, dictLookup]
    by_cases hk : k = k'
    · rw [if_pos hk, if_pos hk.symm]
    · rw [if_neg hk, if_neg (fun h : k' = k => hk h.symm)]
  | cons kv rest ih =>
    obtain ⟨k₀, t₀⟩ := kv
    simp only [dictInsert]
    by_cases hk : k₀ = k
    · rw [if_pos hk]
      simp only [dictLookup]
      by_cases hk' : k₀ = k'
      · rw [if_pos hk', if_pos hk', if_pos (hk'.symm.trans hk)]
      · rw [if_neg hk', if_neg hk']
        by_cases hkk : k' = k
        · exact absurd (hk.trans hkk.symm) hk'
        · rw [if_neg hkk]
    · rw [if_neg hk]
      simp only [dictLookup]
      by_cases hk' : k₀ = k'
      · have hne : ¬ k' = k := fun h => hk (hk'.trans h)
        rw [if_pos hk', if_pos hk', if_neg hne]
      · rw [if_neg hk', if_neg hk', ih]

theorem dictUpdate_keys (d : List (String × Term)) (k : String) (f : Term → Term) :
    (dictUpdate d k f).map Prod.fst = d.map Prod.fst := by
  induction d with
  | nil => rfl
  | cons kv rest ih =>
    by_cases hk : kv.1 = k
    · simp [dictUpdate, hk] at ih ⊢
      exact ih
    · simp [dictUpdate, hk] at ih ⊢
      exact ih

theorem dictUpdate_mem {d : List (String × Term)} {k : String} {f : Term → Term}
    {k' : String} {t' : Term} (h : (k', t') ∈ dictUpdate d k f) :
    ∃ t, (k', t) ∈ d ∧ ((k' = k ∧ t' = f t) ∨ (k' ≠ k ∧ t' = t)) := by
  rcases List.mem_map.mp h with ⟨⟨k₀, t₀⟩, hkv, heq⟩
  dsimp only at heq
  by_cases hk : k₀ = k
  · rw [if_pos hk] at heq
    injection heq with h1 h2
    subst h1; subst h2
    exact ⟨t₀, hkv, Or.inl ⟨hk, rfl⟩⟩
  · rw [if_neg hk] at heq
    injection heq with h1 h2
    subst h1; subst h2
    exact ⟨t₀, hkv, Or.inr ⟨hk, rfl⟩⟩

/-! ## Lemmas about the link-table parse -/

theorem ddAppend_keys_mem (rv : List (String × List String)) (k v : String) (k' : String) :
    k' ∈ (ddAppend rv k v).map Prod.fst ↔ k' ∈ rv.map Prod.fst ∨ k' = k := by
  induction rv with
  | nil => simp [ddAppend]
  | cons kv rest ih =>
    obtain ⟨k₀, vs⟩ := kv
    by_cases hk : k₀ = k
    · subst hk; simp [ddAppend]; tauto
    · simp [ddAppend, hk, ih]; tauto

theorem ddAppend_nodup {rv : List (String × List String)} (k v : String)
    (hn : (rv.map Prod.fst).Nodup) : ((ddAppend rv k v).map Prod.fst).Nodup := by
  induction rv with
  | nil => simp [ddAppend]
  | cons kv rest ih =>
    obtain ⟨k₀, vs⟩ := kv
    simp only [List.map_cons, List.nodup_cons] at hn
    simp only [ddAppend]
    by_cases hk : k₀ = k
    · rw [if_pos hk]
      simp only [List.map_cons, List.nodup_cons]
      exact ⟨hn.1, hn.2⟩
    · rw [if_neg hk]
      simp only [List.map_cons, List.nodup_cons]
      constructor
      · intro hmem
        rcases (ddAppend_keys_mem rest k v k₀).mp hmem with h1 | h2
        · exact hn.1 h1
        · exact hk h2
      · exact ih hn.2

theorem linkLinesToMap_nodup (lines : List String) :
    ∀ rv r, linkLinesToMap lines rv = .ok r →
      (rv.map Prod.fst).Nodup → (r.map Prod.fst).Nodup := by
  induction lines with
  | nil =>
    intro rv r h hn
    simp only [linkLinesToMap, Except.ok.injEq] at h
    subst h; exact hn
  | cons line rest ih =>
    intro rv r h hn
    simp only [linkLinesToMap] at h
    split at h
    · exact ih _ r h (ddAppend_nodup _ _ hn)
    · exact Except.noConfusion h

theorem _get_link_pathway_map_nodup {lines : List String} {lm : List (String × List String)}
    (h : _get_link_pathway_map lines = .ok lm) : (lm.map Prod.fst).Nodup := by
  unfold _get_link_pathway_map at h
  cases hr : linkLinesToMap lines [] with
  | error e => rw [hr] at h; exact Except.noConfusion h
  | ok rv =>
    rw [hr] at h
    simp only [Except.ok.injEq] at h
    subst h
    have h1 : ((rv.map fun kv => (kv.1, pySorted kv.2)).map Prod.fst) = rv.map Prod.fst := by
      simp [List.map_map]
    rw [h1]
    exact linkLinesToMap_nodup lines [] rv hr (by simp)

theorem lexLe_total : ∀ as bs : List Char, lexLe as bs = true ∨ lexLe bs as = true := by
  intro as
  induction as with
  | nil => intro bs; left; rfl
  | cons a as ih =>
    intro bs
    cases bs with
    | nil => right; rfl
    | cons b bs =>
      simp only [lexLe]
      by_cases hab : a.toNat < b.toNat
      · left; rw [if_pos hab]
      · by_cases hba : b.toNat < a.toNat
        · right; rw [if_pos hba]
        · rw [if_neg hab, if_neg hba, if_neg hba, if_neg hab]
          exact ih bs

theorem lexLe_trans : ∀ {as bs cs : List Char},
    lexLe as bs = true → lexLe bs cs = true → lexLe as cs = true := by
  intro as
  induction as with
  | nil => intro bs cs _ _; rfl
  | cons a as ih =>
    intro bs cs h1 h2
    cases bs with
    | nil => simp [lexLe] at h1
    | cons b bs =>
      cases cs with
      | nil => simp [lexLe] at h2
      | cons c cs =>
        simp only [lexLe] at h1 h2 ⊢
        by_cases hab : a.toNat < b.toNat
        · by_cases hbc : b.toNat < c.toNat
          · rw [if_pos (show a.toNat < c.toNat by omega)]
          · rw [if_neg hbc] at h2
            by_cases hcb : c.toNat < b.toNat
            · rw [if_pos hcb] at h2; simp at h2
            · rw [if_pos (show a.toNat < c.toNat by omega)]
        · rw [if_neg hab] at h1
          by_cases hba : b.toNat < a.toNat
          · rw [if_pos hba] at h1; simp at h1
          · rw [if_neg hba] at h1
            by_cases hbc : b.toNat < c.toNat
            · rw [if_pos (show a.toNat < c.toNat by omega)]
            · rw [if_neg hbc] at h2
              by_cases hcb : c.toNat < b.toNat
              · rw [if_pos hcb] at h2; simp at h2
              · rw [if_neg hcb] at h2
                rw [if_neg (show ¬ a.toNat < c.toNat by omega),
                  if_neg (show ¬ c.toNat < a.toNat by omega)]
                exact ih h1 h2

theorem pyLe_total (a b : String) : pyLe a b = true ∨ pyLe b a = true :=
  lexLe_total a.toList b.toList

theorem pyLe_trans {a b c : String} (h1 : pyLe a b = true) (h2 : pyLe b c = true) :
    pyLe a c = true :=
  lexLe_trans h1 h2

theorem mem_pyInsert (a x : String) (l : List String) :
    a ∈ pyInsert x l ↔ a = x ∨ a ∈ l := by
  induction l with
  | nil => simp [pyInsert]
  | cons y ys ih =>
    by_cases hxy : pyLe x y = true
    · simp [pyInsert, hxy]
    · simp only [pyInsert, if_neg hxy, List.mem_cons, ih]
      tauto

theorem sorted_pyInsert (x : String) (l : List String)
    (h : l.Sorted (fun a b => pyLe a b = true)) :
    (pyInsert x l).Sorted (fun a b => pyLe a b = true) := by
  induction l with
  | nil => simp [pyInsert]
  | cons y ys ih =>
    rw [List.sorted_cons] at h
    by_cases hxy : pyLe x y = true
    · simp only [pyInsert, if_pos hxy]
      rw [List.sorted_cons]
      constructor
      · intro b hb
        rcases List.mem_cons.mp hb with rfl | hb2
        · exact hxy
        · exact pyLe_trans hxy (h.1 b hb2)
      · rw [List.sorted_cons]; exact h
    · simp only [pyInsert, if_neg hxy]
      rw [List.sorted_cons]
      constructor
      · intro b hb
        rcases (mem_pyInsert b x ys).mp hb with rfl | hb2
        · rcases pyLe_total b y with h1 | h2
          · exact absurd h1 hxy
          · exact h2
        · exact h.1 b hb2
      · exact ih h.2

theorem sorted_pySorted (l : List String) :
    (pySorted l).Sorted (fun a b => pyLe a b = true) := by
  induction l with
  | nil => simp [pySorted]
  | cons x xs ih => exact sorted_pyInsert x (pySorted xs) ih

theorem _get_link_pathway_map_sorted {lines : List String} {lm : List (String × List String)}
    (h : _get_link_pathway_map lines = .ok lm) :
    ∀ k v, (k, v) ∈ lm → List.Sorted (fun a b : String => pyLe a b = true) v := by
  unfold _get_link_pathway_map at h
  cases hr : linkLinesToMap lines [] with
  | error e => rw [hr] at h; exact Except.noConfusion h
  | ok rv =>
    rw [hr] at h
    simp only [Except.ok.injEq] at h
    subst h
    intro k v hv
    rcases List.mem_map.mp hv with ⟨⟨k₀, v₀⟩, _, heq⟩
    injection heq with h1 h2
    subst h2
    exact sorted_pySorted v₀

/-! ## Lemmas about the listing parse -/

theorem appendGenes_eq (ps : List String) : ∀ t : Term,
    appendGenes t ps =
      { reference := t.reference,
        relationships := t.relationships ++
          ps.map (fun pid => (has_part, { pfx := "kegg.genes", identifier := pid, name := none })),
        species := t.species } := by
  induction ps with
  | nil => intro t; cases t; simp [appendGenes]
  | cons p ps ih =>
    intro t
    have h0 : appendGenes t (p :: ps) =
        appendGenes (t.append_relationship has_part
          { pfx := "kegg.genes", identifier := p, name := none }) ps := rfl
    rw [h0, ih]
    simp [Term.append_relationship]

theorem termOfLine_good {line : String} {g : KEGGGenome} {t : Term}
    (h : termOfLine line g = .ok t) : goodTerm g t.reference.identifier t := by
  unfold termOfLine at h
  cases hs : (pySplit (pyStrip line)).map pyStrip with
  | nil => rw [hs] at h; exact Except.noConfusion h
  | cons a l1 =>
    cases l1 with
    | nil => rw [hs] at h; exact Except.noConfusion h
    | cons b l2 =>
      cases l2 with
      | cons c l3 => rw [hs] at h; exact Except.noConfusion h
      | nil =>
        rw [hs] at h
        dsimp only at h
        cases hmc : genericMapCode (pySliceFrom a 5) with
        | error e => rw [hmc] at h; exact Except.noConfusion h
        | ok mc =>
          rw [hmc] at h
          cases htax : g.taxonomy_id with
          | some tax =>
            rw [htax] at h
            dsimp only at h
            simp only [Except.ok.injEq] at h
            subst h
            refine ⟨rfl, rfl, ?_, mc, hmc, ?_⟩
            · simp [Term.set_species, Term.append_relationship, htax]
            · simp [Term.set_species, Term.append_relationship]
          | none =>
            rw [htax] at h
            dsimp only at h
            simp only [Except.ok.injEq] at h
            subst h
            refine ⟨rfl, rfl, ?_, mc, hmc, ?_⟩
            · simp [Term.append_relationship, htax]
            · simp [Term.append_relationship]

theorem parsedId_of_ok {line : String} {g : KEGGGenome} {t : Term}
    (h : termOfLine line g = .ok t) : parsedId line = some t.reference.identifier := by
  unfold termOfLine at h
  unfold parsedId
  cases hs : (pySplit (pyStrip line)).map pyStrip with
  | nil => rw [hs] at h; exact Except.noConfusion h
  | cons a l1 =>
    cases l1 with
    | nil => rw [hs] at h; exact Except.noConfusion h
    | cons b l2 =>
      cases l2 with
      | cons c l3 => rw [hs] at h; exact Except.noConfusion h
      | nil =>
        rw [hs] at h
        dsimp only at h
        cases hmc : genericMapCode (pySliceFrom a 5) with
        | error e => rw [hmc] at h; exact Except.noConfusion h
        | ok mc =>
          rw [hmc] at h
          cases htax : g.taxonomy_id with
          | some tax =>
            rw [htax] at h
            dsimp only at h
            simp only [Except.ok.injEq] at h
            subst h
            rfl
          | none =>
            rw [htax] at h
            dsimp only at h
            simp only [Except.ok.injEq] at h
            subst h
            rfl

theorem buildTermsGo_good (g : KEGGGenome) (lines : List String) :
    ∀ d d₂, buildTermsGo g lines d = .ok d₂ →
      (∀ k t, (k, t) ∈ d → goodTerm g k t) →
      ∀ k t, (k, t) ∈ d₂ → goodTerm g k t := by
  induction lines with
  | nil =>
    intro d d₂ h hd
    simp only [buildTermsGo, Except.ok.injEq] at h
    subst h; exact hd
  | cons line rest ih =>
    intro d d₂ h hd
    simp only [buildTermsGo] at h
    cases ht : termOfLine line g with
    | error e => rw [ht] at h; exact Except.noConfusion h
    | ok t₀ =>
      rw [ht] at h
      refine ih _ d₂ h ?_
      intro k t hkt
      rcases dictInsert_mem hkt with h1 | ⟨rfl, rfl⟩
      · exact hd k t h1
      · exact termOfLine_good ht

theorem buildTermsGo_nodup (g : KEGGGenome) (lines : List String) :
    ∀ d d₂, buildTermsGo g lines d = .ok d₂ →
      (d.map Prod.fst).Nodup → (d₂.map Prod.fst).Nodup := by
  induction lines with
  | nil =>
    intro d d₂ h hd
    simp only [buildTermsGo, Except.ok.injEq] at h
    subst h; exact hd
  | cons line rest ih =>
    intro d d₂ h hd
    simp only [buildTermsGo] at h
    cases ht : termOfLine line g with
    | error e => rw [ht] at h; exact Except.noConfusion h
    | ok t₀ =>
      rw [ht] at h
      exact ih _ d₂ h (dictInsert_nodup _ _ hd)

theorem buildTermsGo_lines_ok (g : KEGGGenome) (lines : List String) :
    ∀ d d₂, buildTermsGo g lines d = .ok d₂ →
      ∀ l ∈ lines, ∃ t, termOfLine l g = .ok t := by
  induction lines with
  | nil => intro d d₂ _ l hl; simp at hl
  | cons line rest ih =>
    intro d d₂ h l hl
    simp only [buildTermsGo] at h
    cases ht : termOfLine line g with
    | error e => rw [ht] at h; exact Except.noConfusion h
    | ok t₀ =>
      rw [ht] at h
      rcases List.mem_cons.mp hl with rfl | hmem
      · exact ⟨t₀, ht⟩
      · exact ih _ d₂ h l hmem

theorem buildTermsGo_lookup (g : KEGGGenome) (lines : List String) :
    ∀ d d₂, buildTermsGo g lines d = .ok d₂ → ∀ k,
      dictLookup k d₂ =
        match lastTermFor g lines k with
        | some t => some t
        | none => dictLookup k d := by
  induction lines with
  | nil =>
    intro d d₂ h k
    simp only [buildTermsGo, Except.ok.injEq] at h
    subst h
    simp [lastTermFor]
  | cons line rest ih =>
    intro d d₂ h k
    simp only [buildTermsGo] at h
    cases ht : termOfLine line g with
    | error e => rw [ht] at h; exact Except.noConfusion h
    | ok t₀ =>
      rw [ht] at h
      have hpid : parsedId line = some t₀.reference.identifier := parsedId_of_ok ht
      rw [ih _ d₂ h k]
      by_cases hk : t₀.reference.identifier = k
      · have hfil : (line :: rest).filter (fun l => parsedId l == some k) =
            line :: rest.filter (fun l => parsedId l == some k) := by
          simp [List.filter_cons, hpid, hk]
        cases hF : rest.filter (fun l => parsedId l == some k) with
        | nil =>
          have hlast : lastTermFor g (line :: rest) k = some t₀ := by
            simp [lastTermFor, hfil, hF, ht, Except.toOption]
          have hrest : lastTermFor g rest k = none := by
            simp [lastTermFor, hF]
          rw [hlast, hrest]
          dsimp only
          rw [dictInsert_lookup, if_pos hk.symm]
        | cons f fs =>
          have hlastEq : lastTermFor g (line :: rest) k = lastTermFor g rest k := by
            simp [lastTermFor, hfil, hF]
          obtain ⟨l', hl'⟩ : ∃ l', (rest.filter (fun l => parsedId l == some k)).getLast? = some l' := by
            rw [hF]
            exact ⟨(f :: fs).getLast (by simp), List.getLast?_eq_getLast_of_ne_nil (by simp)⟩
          have hmemf : l' ∈ rest := by
            have hmem0 : l' ∈ (rest.filter (fun l => parsedId l == some k)).getLast? := by
              rw [Option.mem_def]; exact hl'
            rcases List.mem_getLast?_eq_getLast hmem0 with ⟨hne2, heq⟩
            have h1 : l' ∈ rest.filter (fun l => parsedId l == some k) := by
              rw [heq]; exact List.getLast_mem hne2
            exact List.mem_of_mem_filter h1
          rcases buildTermsGo_lines_ok g rest _ d₂ h _ hmemf with ⟨t', ht'⟩
          have hrest : lastTermFor g rest k = some t' := by
            simp [lastTermFor, hl', ht', Except.toOption]
          rw [hlastEq, hrest]
      · have hfil : (line :: rest).filter (fun l => parsedId l == some k) =
            rest.filter (fun l => parsedId l == some k) := by
          simp [List.filter_cons, hpid, hk]
        have hlastEq : lastTermFor g (line :: rest) k = lastTermFor g rest k := by
          simp [lastTermFor, hfil]
        rw [hlastEq]
        cases hl : lastTermFor g rest k with
        | some t' => rfl
        | none =>
          dsimp only
          rw [dictInsert_lookup, if_neg (fun hkk : k = t₀.reference.identifier => hk hkk.symm)]

/-! ## Lemmas about the merge step -/

theorem mergeLink_keys (lm : List (String × List String)) :
    ∀ d log d₂, mergeLink d lm = (log, .ok d₂) → d₂.map Prod.fst = d.map Prod.fst := by
  induction lm with
  | nil =>
    intro d log d₂ h
    have h2 : (.ok d : Except PyError _) = .ok d₂ := congrArg Prod.snd h
    simp only [Except.ok.injEq] at h2
    subst h2; rfl
  | cons entry rest ih =>
    intro d log d₂ h
    obtain ⟨pid, pids⟩ := entry
    simp only [mergeLink] at h
    cases hl : dictLookup pid d with
    | none =>
      rw [hl] at h
      cases pids with
      | nil =>
        rcases hmr : mergeLink d rest with ⟨l₁, r₁⟩
        rw [hmr] at h
        dsimp only at h
        have h2 : r₁ = .ok d₂ := congrArg Prod.snd h
        subst h2
        exact ih d l₁ d₂ hmr
      | cons p ps' =>
        dsimp only at h
        exact Except.noConfusion (congrArg Prod.snd h)
    | some t₁ =>
      rw [hl] at h
      dsimp only at h
      have h1 := ih _ log d₂ h
      rw [h1, dictUpdate_keys]

theorem mergeLink_entries (lm : List (String × List String)) :
    ∀ d log d₂, (d.map Prod.fst).Nodup → (lm.map Prod.fst).Nodup →
      mergeLink d lm = (log, .ok d₂) →
      ∀ k t', (k, t') ∈ d₂ →
        ∃ t, (k, t) ∈ d ∧
          (t' = t ∨ ∃ ps, dictLookup k lm = some ps ∧ t' = appendGenes t ps) := by
  induction lm with
  | nil =>
    intro d log d₂ _ _ h k t' hmem
    have h2 : (.ok d : Except PyError _) = .ok d₂ := congrArg Prod.snd h
    simp only [Except.ok.injEq] at h2
    subst h2
    exact ⟨t', hmem, Or.inl rfl⟩
  | cons entry rest ih =>
    intro d log d₂ hd hlm h k t' hmem
    obtain ⟨pid, pids⟩ := entry
    simp only [List.map_cons, List.nodup_cons] at hlm
    simp only [mergeLink] at h
    cases hl : dictLookup pid d with
    | none =>
      rw [hl] at h
      cases pids with
      | nil =>
        rcases hmr : mergeLink d rest with ⟨l₁, r₁⟩
        rw [hmr] at h
        dsimp only at h
        have h2 : r₁ = .ok d₂ := congrArg Prod.snd h
        subst h2
        rcases ih d l₁ d₂ hd hlm.2 hmr k t' hmem with ⟨t, htd, hcase⟩
        refine ⟨t, htd, ?_⟩
        rcases hcase with rfl | ⟨ps, hps, rfl⟩
        · exact Or.inl rfl
        · right
          refine ⟨ps, ?_, rfl⟩
          have hkne : pid ≠ k := by
            intro hkk; subst hkk
            exact hlm.1 (List.mem_map_of_mem Prod.fst (dictLookup_mem hps))
          simp [dictLookup, hkne, hps]
      | cons p ps' =>
        dsimp only at h
        exact Except.noConfusion (congrArg Prod.snd h)
    | some t₁ =>
      rw [hl] at h
      dsimp only at h
      have hd' : ((dictUpdate d pid fun t => appendGenes t pids).map Prod.fst).Nodup := by
        rw [dictUpdate_keys]; exact hd
      rcases ih _ log d₂ hd' hlm.2 h k t' hmem with ⟨t₁', hmem', hcase⟩
      rcases dictUpdate_mem hmem' with ⟨t, htd, hup⟩
      refine ⟨t, htd, ?_⟩
      rcases hup with ⟨rfl, rfl⟩ | ⟨hne, rfl⟩
      · rcases hcase with rfl | ⟨ps₁, hps₁, rfl⟩
        · right
          exact ⟨pids, by simp [dictLookup], rfl⟩
        · exfalso
          exact hlm.1 (List.mem_map_of_mem Prod.fst (dictLookup_mem hps₁))
      · rcases hcase with rfl | ⟨ps₁, hps₁, rfl⟩
        · exact Or.inl rfl
        · right
          refine ⟨ps₁, ?_, rfl⟩
          have hpk : pid ≠ k := fun hkk => hne hkk.symm
          simp only [dictLookup]
          rw [if_neg hpk]
          exact hps₁

theorem batch_filter_ss (ps : List String) :
    ((ps.map (fun pid => (has_part, { pfx := "kegg.genes", identifier := pid, name := none }))).filter
      (fun p : TypeDef × Reference => p.1 == species_specific)) = [] := by
  induction ps with
  | nil => rfl
  | cons p ps ih => simp [List.filter_cons, ih, (by decide : (has_part == species_specific) = false)]

theorem batch_filter_fks (ps : List String) :
    ((ps.map (fun pid => (has_part, { pfx := "kegg.genes", identifier := pid, name := none }))).filter
      (fun p : TypeDef × Reference => p.1 == from_kegg_species)) = [] := by
  induction ps with
  | nil => rfl
  | cons p ps ih => simp [List.filter_cons, ih, (by decide : (has_part == from_kegg_species) = false)]

theorem batch_filter_nonhp (ps : List String) :
    ((ps.map (fun pid => (has_part, { pfx := "kegg.genes", identifier := pid, name := none }))).filter
      (fun p : TypeDef × Reference => p.1 != has_part)) = [] := by
  induction ps with
  | nil => rfl
  | cons p ps ih => simp [List.filter_cons, ih, (by decide : (has_part != has_part) = false)]

theorem batch_targets (ps : List String) :
    (((ps.map (fun pid => (has_part, { pfx := "kegg.genes", identifier := pid, name := none }))).filter
      (fun p : TypeDef × Reference => p.1 == has_part)).map (fun p => p.2.identifier)) = ps := by
  induction ps with
  | nil => rfl
  | cons p ps ih => simp [List.filter_cons, ih, (by decide : (has_part == has_part) = true)]

theorem goodTerm_parts {g : KEGGGenome} {k : String} {t₀ : Term} (ps : List String)
    (hg : goodTerm g k t₀) :
    hasPartTargets (appendGenes t₀ ps) = ps ∧
    (appendGenes t₀ ps).species = g.taxonomy_id ∧
    stripHasPart (appendGenes t₀ ps) = t₀ ∧
    ∃ mc, genericMapCode k = .ok mc ∧
      (appendGenes t₀ ps).relationships.filter (fun p => p.1 == species_specific) =
        [(species_specific, { pfx := keggPathwayPfx, identifier := mc, name := none })] ∧
      (appendGenes t₀ ps).relationships.filter (fun p => p.1 == from_kegg_species) =
        [(from_kegg_species, g.get_reference)] := by
  obtain ⟨hid, hpfx, hsp, mc, hmc, hrels⟩ := hg
  rw [appendGenes_eq]
  refine ⟨?_, hsp, ?_, mc, hmc, ?_, ?_⟩
  · dsimp only [hasPartTargets]
    rw [List.filter_append, hrels, List.map_append, batch_targets ps]
    simp [List.filter_cons, (by decide : (species_specific == has_part) = false),
      (by decide : (from_kegg_species == has_part) = false)]
  · dsimp only [stripHasPart]
    rw [List.filter_append, batch_filter_nonhp ps, List.append_nil]
    have hkeep : t₀.relationships.filter (fun p => p.1 != has_part) = t₀.relationships := by
      rw [hrels]
      simp [List.filter_cons, (by decide : (species_specific != has_part) = true),
        (by decide : (from_kegg_species != has_part) = true)]
    rw [hkeep]
  · dsimp only
    rw [List.filter_append, hrels, batch_filter_ss ps]
    simp [List.filter_cons, (by decide : (species_specific == species_specific) = true),
      (by decide : (from_kegg_species == species_specific) = false)]
  · dsimp only
    rw [List.filter_append, hrels, batch_filter_fks ps]
    simp [List.filter_cons, (by decide : (species_specific == from_kegg_species) = false),
      (by decide : (from_kegg_species == from_kegg_species) = true)]

theorem except_toOption_ok {α : Type} {e : Except PyError α} {a : α}
    (h : e.toOption = some a) : e = .ok a := by
  cases e with
  | error x => simp [Except.toOption] at h
  | ok b =>
    simp only [Except.toOption, Option.some.injEq] at h
    rw [h]

theorem containsStr_intro (hay x y n : String)
    (h : hay.toList = x.toList ++ n.toList ++ y.toList) : containsStr hay n :=
  ⟨x.toList, y.toList, h⟩

/-! ## Lemmas about stripping and splitting raw lines -/

theorem dropWhile_eq_self_of_head (p : Char → Bool) (cs : List Char)
    (h : ∀ c, cs.head? = some c → p c = false) : cs.dropWhile p = cs := by
  cases cs with
  | nil => rfl
  | cons c cs' => simp [List.dropWhile_cons, h c rfl]

theorem pyStripL_eq_self {cs : List Char}
    (h1 : ∀ c, cs.head? = some c → isPyWs c = false)
    (h2 : ∀ c, cs.getLast? = some c → isPyWs c = false) : pyStripL cs = cs := by
  unfold pyStripL
  rw [dropWhile_eq_self_of_head _ _ h1]
  rw [dropWhile_eq_self_of_head _ _ (fun c hc => h2 c (by rwa [List.head?_reverse] at hc))]
  exact List.reverse_reverse cs

theorem pyStrip_eq_self {s : String} (h : ∀ c ∈ s.toList, isPyWs c = false) :
    pyStrip s = s := by
  have h1 : ∀ c, s.toList.head? = some c → isPyWs c = false :=
    fun c hc => h c (List.mem_of_mem_head? hc)
  have h2 : ∀ c, s.toList.getLast? = some c → isPyWs c = false := by
    intro c hc
    rcases List.mem_getLast?_eq_getLast (show c ∈ s.toList.getLast? from hc) with ⟨hne, heq⟩
    refine h c ?_
    rw [heq]
    exact List.getLast_mem hne
  unfold pyStrip
  rw [pyStripL_eq_self h1 h2]
  rfl

theorem toList_line (a b : String) : (a ++ "\t" ++ b).toList = a.toList ++ '\t' :: b.toList := by
  have h0 : ("\t" : String).toList = ['\t'] := rfl
  simp [h0]

theorem strip_line_pair {a b : String} (hane : a.toList ≠ []) (hbne : b.toList ≠ [])
    (ha : ∀ c ∈ a.toList, isPyWs c = false) (hb : ∀ c ∈ b.toList, isPyWs c = false) :
    pyStrip (a ++ "\t" ++ b) = a ++ "\t" ++ b := by
  unfold pyStrip
  rw [toList_line]
  rw [pyStripL_eq_self ?hh1 ?hh2]
  case hh1 =>
    intro c hc
    rcases hal : a.toList with _ | ⟨a0, as⟩
    · exact absurd hal hane
    · rw [hal] at hc
      simp only [List.cons_append, List.head?_cons, Option.some.injEq] at hc
      subst hc
      refine ha a0 ?_
      rw [hal]
      exact List.mem_cons_self _ _
  case hh2 =>
    intro c hc
    rcases hbl : b.toList with _ | ⟨b0, bs⟩
    · exact absurd hbl hbne
    · rw [hbl] at hc
      rw [List.getLast?_append_of_ne_nil _ (by simp), List.getLast?_cons_cons] at hc
      have hcm : c ∈ b.toList := by
        rcases List.mem_getLast?_eq_getLast (show c ∈ (b0 :: bs).getLast? from hc) with ⟨hne, heq⟩
        rw [hbl, heq]
        exact List.getLast_mem hne
      exact hb c hcm
  · rw [← toList_line]
    rfl

theorem splitTabL_no_tab {cs : List Char} (h : '\t' ∉ cs) : splitTabL cs = [cs] := by
  induction cs with
  | nil => rfl
  | cons c cs' ih =>
    have hc : ¬ c = '\t' := fun hx => h (by rw [hx]; exact List.mem_cons_self _ _)
    have h' : '\t' ∉ cs' := fun hx => h (List.mem_cons_of_mem _ hx)
    simp [splitTabL, hc, ih h']

theorem splitTabL_append {xs ys : List Char} (h : '\t' ∉ xs) :
    splitTabL (xs ++ '\t' :: ys) = xs :: splitTabL ys := by
  induction xs with
  | nil => simp [splitTabL]
  | cons x xs' ih =>
    have hx : ¬ x = '\t' := fun hh => h (by rw [hh]; exact List.mem_cons_self _ _)
    have h' : '\t' ∉ xs' := fun hm => h (List.mem_cons_of_mem _ hm)
    simp only [List.cons_append, splitTabL, if_neg hx, List.append_eq, ih h']

theorem pySplit_pair {a b : String} (ha : '\t' ∉ a.toList) (hb : '\t' ∉ b.toList) :
    pySplit (a ++ "\t" ++ b) = [a, b] := by
  unfold pySplit
  rw [toList_line, splitTabL_append ha, splitTabL_no_tab hb]
  rfl

theorem no_tab_of_no_ws {s : String} (h : ∀ c ∈ s.toList, isPyWs c = false) :
    '\t' ∉ s.toList :=
  fun hm => absurd (h '\t' hm) (by decide)

/-! ## Structure of the per-genome output -/

theorem genomeTerms_struct {ll kl : List String} {g : KEGGGenome} {log : List String} {ts : List Term}
    (h : _iter_genome_terms ll kl g = (log, .ok ts)) :
    (ts.map (fun t => t.reference.identifier)).Nodup ∧
    ∀ t ∈ ts, ∃ t₀ ps,
      goodTerm g t.reference.identifier t₀ ∧
      t = appendGenes t₀ ps ∧
      List.Sorted (fun a b : String => pyLe a b = true) ps ∧
      lastTermFor g (ll.map pyStrip) t.reference.identifier = some t₀ := by
  unfold _iter_genome_terms at h
  cases hb : buildTerms ll g with
  | error e =>
    rw [hb] at h; dsimp only at h
    exact Except.noConfusion (congrArg Prod.snd h)
  | ok d =>
    rw [hb] at h
    cases hlmr : _get_link_pathway_map kl with
    | error e =>
      rw [hlmr] at h; dsimp only at h
      exact Except.noConfusion (congrArg Prod.snd h)
    | ok lm =>
      rw [hlmr] at h
      dsimp only at h
      rcases hm : mergeLink d lm with ⟨mlog, mres⟩
      rw [hm] at h
      cases mres with
      | error e =>
        dsimp only at h
        exact Except.noConfusion (congrArg Prod.snd h)
      | ok d₂ =>
        dsimp only at h
        have hts : ts = d₂.map Prod.snd := by
          have h2 := congrArg Prod.snd h
          simp only [Except.ok.injEq] at h2
          exact h2.symm
        have hlog : mlog = log := congrArg Prod.fst h
        have hb' : buildTermsGo g (ll.map pyStrip) [] = .ok d := hb
        have hdn : (d.map Prod.fst).Nodup :=
          buildTermsGo_nodup g (ll.map pyStrip) [] d hb' (by simp)
        have hlmn : (lm.map Prod.fst).Nodup := _get_link_pathway_map_nodup hlmr
        have hmok : mergeLink d lm = (log, .ok d₂) := by rw [hm, hlog]
        have hmerge := mergeLink_entries lm d log d₂ hdn hlmn hmok
        have hgood : ∀ k t, (k, t) ∈ d → goodTerm g k t :=
          buildTermsGo_good g (ll.map pyStrip) [] d hb' (by simp)
        have hkeys : d₂.map Prod.fst = d.map Prod.fst := mergeLink_keys lm d log d₂ hmok
        have hid : ∀ kv ∈ d₂, kv.2.reference.identifier = kv.1 := by
          intro kv hkv
          obtain ⟨k, t'⟩ := kv
          rcases hmerge k t' hkv with ⟨t₀, htd, hcase⟩
          have hg := hgood k t₀ htd
          rcases hcase with rfl | ⟨ps, _, rfl⟩
          · exact hg.1
          · dsimp only
            rw [appendGenes_eq]
            exact hg.1
        constructor
        · have h1 : ts.map (fun t => t.reference.identifier) = d₂.map Prod.fst := by
            rw [hts, List.map_map]
            exact List.map_congr_left hid
          rw [h1, hkeys]
          exact hdn
        · intro t ht
          rw [hts] at ht
          rcases List.mem_map.mp ht with ⟨⟨k, t'⟩, hkv, rfl⟩
          rcases hmerge k t' hkv with ⟨t₀, htd, hcase⟩
          have hg := hgood k t₀ htd
          have hidt : (k, t').2.reference.identifier = k := hid (k, t') hkv
          dsimp only at hidt ⊢
          have hlook : dictLookup k d = some t₀ := mem_dictLookup hdn htd
          have hlast : lastTermFor g (ll.map pyStrip) k = some t₀ := by
            have h2 := buildTermsGo_lookup g (ll.map pyStrip) [] d hb' k
            rw [hlook] at h2
            cases hL : lastTermFor g (ll.map pyStrip) k with
            | none => rw [hL] at h2; simp [dictLookup] at h2
            | some tx =>
              rw [hL] at h2
              dsimp only at h2
              simp only [Option.some.injEq] at h2
              rw [h2]
          rcases hcase with heq | ⟨ps, hps, heq⟩
          · rw [hidt]
            exact ⟨t₀, [], hg, heq, List.sorted_nil, hlast⟩
          · rw [hidt]
            have hsorted := _get_link_pathway_map_sorted hlmr k ps (dictLookup_mem hps)
            exact ⟨t₀, ps, hg, heq, hsorted, hlast⟩

/-! ## The claims -/

/-- Claim C1 (evidence of the code bug): on the link line
`hsa:10458 TAB path:hsa00010` for a genome whose listing declares
`hsa00010`, the single `has_part` edge appended to the Term targets the
pathway code `hsa00010` — which differs from the gene identifier
`hsa:10458` of the line — because `_get_link_pathway_map` appends the
pathway code to its own group (`rv[pathway].append(pathway)`) and never
uses the parsed protein field. -/
theorem C1_has_part_edge_targets_pathway_code :
    ((_iter_genome_terms ["path:hsa00010\tGlycolysis"] ["hsa:10458\tpath:hsa00010"] genomeHsa).2).map
      (fun ts => ts.map hasPartTargets) = .ok [["hsa00010"]] ∧
    ("hsa00010" : String) ≠ "hsa:10458" :=
  ⟨rfl, by decide⟩

/-- Claim C2 (evidence of the code bug): when the link table names the
pathway code `hsa99999` absent from the listing, the merge step writes the
could-not-find diagnostic but then still iterates over the group and calls
`append_relationship` on `None`, so the whole merge raises
`AttributeError` instead of skipping the genes and continuing. -/
theorem C2_missing_pathway_reports_then_raises :
    _iter_genome_terms ["path:hsa00010\tGlycolysis"] ["ggo:101124366\tpath:hsa99999"] genomeHsa =
      (["could not find kegg.pathway:hsa99999"],
       .error (.attributeError "NoneType object has no attribute append_relationship")) :=
  rfl

/-- Claim C3 counterexample: two link lines with distinct gene identifiers
for the same pathway produce a `has_part` target list with a duplicate
entry, so the identifiers attached to one pathway are not unique — the
grouping appends one entry per line and never deduplicates. -/
theorem C3_counterexample_duplicates_kept :
    ((_iter_genome_terms ["path:mmu00010\tGlycolysis"]
        ["mmu:14751\tpath:mmu00010", "mmu:14433\tpath:mmu00010"] genomeMmu).2).map
      (fun ts => ts.map hasPartTargets) = .ok [["mmu00010", "mmu00010"]] ∧
    ¬ (["mmu00010", "mmu00010"] : List String).Nodup :=
  ⟨rfl, by decide⟩

/-- Claim C3 (amended): for every Term emitted by `_iter_genome_terms`,
the identifiers attached as `has_part` edges appear in ascending sorted
order (Python string order, code-point lexicographic); duplicates are not
removed. -/
theorem C3_amended_has_part_targets_sorted (ll kl : List String) (g : KEGGGenome)
    (log : List String) (ts : List Term)
    (h : _iter_genome_terms ll kl g = (log, .ok ts)) :
    ∀ t ∈ ts, List.Sorted (fun a b : String => pyLe a b = true) (hasPartTargets t) := by
  intro t ht
  rcases (genomeTerms_struct h).2 t ht with ⟨t₀, ps, hg, heq, hsorted, _⟩
  rw [heq, (goodTerm_parts ps hg).1]
  exact hsorted

/-- Witness for the amended C3 at a concrete genome input. -/
theorem C3_amended_witness :
    _iter_genome_terms ["path:eco00010\tGlycolysis"] ["b0001\tpath:eco00010"] genomeEco =
      ([], .ok [termEco00010]) ∧
    List.Sorted (fun a b : String => pyLe a b = true) (hasPartTargets termEco00010) :=
  ⟨rfl, C3_amended_has_part_targets_sorted ["path:eco00010\tGlycolysis"]
    ["b0001\tpath:eco00010"] genomeEco [] [termEco00010] rfl termEco00010
    (List.mem_singleton.mpr rfl)⟩

/-- Claim C4 counterexample: on the digit-free code `hsadef` the
generic-map-code derivation raises the builtin
`ValueError: min() arg is an empty sequence`, not `MalformedIdentifier`;
and the unhandled error aborts the whole listing parse of the genome — a
listing with one good line and one digit-free line yields no Terms at
all, only the error. -/
theorem C4_counterexample_value_error_not_malformed :
    genericMapCode "hsadef" = .error (.valueError "min() arg is an empty sequence") ∧
    genericMapCode "hsadef" ≠ .error .malformedIdentifier ∧
    _iter_genome_terms ["path:rno00010\tGlycolysis", "path:rnodef\tBroken"] [] genomeRno =
      ([], .error (.valueError "min() arg is an empty sequence")) := by
  refine ⟨rfl, ?_, rfl⟩
  intro h
  have h0 : genericMapCode "hsadef" = .error (.valueError "min() arg is an empty sequence") := rfl
  have h1 := h0.symm.trans h
  simp only [Except.error.injEq] at h1
  exact PyError.noConfusion h1

/-- Claim C4 (amended): for every pathway code with no numeric character,
generic-map-code derivation fails — but with the builtin empty-sequence
`ValueError` raised by `min`, not with `MalformedIdentifier`, and the
error propagates unhandled (aborting the whole listing parse rather than
only that line). -/
theorem C4_amended_no_digit_raises_value_error (s : String)
    (h : ∀ c ∈ s.toList, isNumericChar c = false) :
    genericMapCode s = .error (.valueError "min() arg is an empty sequence") ∧
    genericMapCode s ≠ .error .malformedIdentifier := by
  have h1 := genericMapCode_of_none s h
  refine ⟨h1, ?_⟩
  rw [h1]
  intro h2
  simp only [Except.error.injEq] at h2
  exact PyError.noConfusion h2

/-- Witness for the amended C4 at the concrete digit-free code `abc`. -/
theorem C4_amended_witness :
    (∀ c ∈ ("abc" : String).toList, isNumericChar c = false) ∧
    genericMapCode "abc" = .error (.valueError "min() arg is an empty sequence") :=
  ⟨by decide, (C4_amended_no_digit_raises_value_error "abc" (by decide)).1⟩

/-- Claim C5: the Driver skips a genome with a 404 fetch silently (it
yields no triple and writes nothing), and on any other HTTP error writes
one diagnostic containing the genome code, the display name, the failing
locator, and the taxonomy id when known, then continues with the
remaining genomes; in both cases the run is not aborted. -/
theorem C5_driver_skips_404_reports_others (g : KEGGGenome)
    (rest : List (KEGGGenome × FetchResult)) (url : String) (code : Nat) :
    (code = 404 →
      iter_kegg_pathway_paths ((g, FetchResult.httpError code url) :: rest) =
        iter_kegg_pathway_paths rest) ∧
    (code ≠ 404 →
      iter_kegg_pathway_paths ((g, FetchResult.httpError code url) :: rest) =
        ((iter_kegg_pathway_paths rest).1,
          httpErrMsg g code url :: (iter_kegg_pathway_paths rest).2) ∧
      containsStr (httpErrMsg g code url) g.identifier ∧
      containsStr (httpErrMsg g code url) g.name ∧
      containsStr (httpErrMsg g code url) url ∧
      (∀ tax, g.taxonomy_id = some tax →
        containsStr (httpErrMsg g code url) ("taxonomy:" ++ tax))) := by
  constructor
  · intro h404
    subst h404
    simp [iter_kegg_pathway_paths]
  · intro hne
    refine ⟨?_, ?_, ?_, ?_, ?_⟩
    · simp [iter_kegg_pathway_paths, hne]
    · cases htax : g.taxonomy_id with
      | none =>
        refine containsStr_intro _ ("[HTTP " ++ toString code ++ "] Error downloading ")
          (" (" ++ g.name ++ "): " ++ url) g.identifier ?_
        simp [httpErrMsg, htax]
      | some tax =>
        refine containsStr_intro _ ("[HTTP " ++ toString code ++ "] Error downloading ")
          (" (" ++ g.name ++ "; taxonomy:" ++ tax ++ "): " ++ url) g.identifier ?_
        simp [httpErrMsg, htax]
    · cases htax : g.taxonomy_id with
      | none =>
        refine containsStr_intro _
          ("[HTTP " ++ toString code ++ "] Error downloading " ++ g.identifier ++ " (")
          ("): " ++ url) g.name ?_
        simp [httpErrMsg, htax]
      | some tax =>
        refine containsStr_intro _
          ("[HTTP " ++ toString code ++ "] Error downloading " ++ g.identifier ++ " (")
          ("; taxonomy:" ++ tax ++ "): " ++ url) g.name ?_
        simp [httpErrMsg, htax]
    · cases htax : g.taxonomy_id with
      | none =>
        refine containsStr_intro _
          ("[HTTP " ++ toString code ++ "] Error downloading " ++ g.identifier ++ " (" ++ g.name ++ "): ")
          "" url ?_
        simp [httpErrMsg, htax]
      | some tax =>
        refine containsStr_intro _
          ("[HTTP " ++ toString code ++ "] Error downloading " ++ g.identifier ++ " (" ++ g.name
            ++ "; taxonomy:" ++ tax ++ "): ")
          "" url ?_
        simp [httpErrMsg, htax]
    · intro tax htax
      refine containsStr_intro _
        ("[HTTP " ++ toString code ++ "] Error downloading " ++ g.identifier ++ " (" ++ g.name ++ "; ")
        ("): " ++ url) ("taxonomy:" ++ tax) ?_
      simp [httpErrMsg, htax,
        (show ("; taxonomy:" : String).toList = ("; " : String).toList ++ ("taxonomy:" : String).toList from rfl)]

/-- Witness for C5: a 404 on genome `xyz` is skipped with no diagnostic,
a 500 on genome `hsa` is skipped with one diagnostic that names the
genome. -/
theorem C5_witness :
    iter_kegg_pathway_paths [(genomeXyz, FetchResult.httpError 404 "http://rest.kegg.jp/list/pathway/xyz")] = ([], []) ∧
    iter_kegg_pathway_paths [(genomeHsa, FetchResult.httpError 500 "http://rest.kegg.jp/list/pathway/hsa")] =
      ([], [httpErrMsg genomeHsa 500 "http://rest.kegg.jp/list/pathway/hsa"]) ∧
    containsStr (httpErrMsg genomeHsa 500 "http://rest.kegg.jp/list/pathway/hsa") "hsa" := by
  refine ⟨?_, ?_, ?_⟩
  · exact ((C5_driver_skips_404_reports_others genomeXyz []
      "http://rest.kegg.jp/list/pathway/xyz" 404).1 rfl).trans rfl
  · exact (((C5_driver_skips_404_reports_others genomeHsa []
      "http://rest.kegg.jp/list/pathway/hsa" 500).2 (by decide)).1).trans rfl
  · exact (((C5_driver_skips_404_reports_others genomeHsa []
      "http://rest.kegg.jp/list/pathway/hsa" 500).2 (by decide)).2).1

/-- Claim C6: for every pathway code containing a numeric character, the
derived generic map code is the literal `map` followed by exactly the
suffix of the code from its first numeric character (the index found by
`findIdx`), and deriving twice yields the same result (the derivation is
a pure function, so the second conjunct is definitional). -/
theorem C6_generic_map_code_first_digit_suffix (p : String)
    (h : p.toList.any isNumericChar = true) :
    genericMapCode p = .ok ("map" ++ pySliceFrom p (p.toList.findIdx isNumericChar)) ∧
    genericMapCode p = genericMapCode p :=
  ⟨genericMapCode_of_any p h, rfl⟩

/-- Witness for C6 at the concrete species code hsa00010, whose generic
code is map00010. -/
theorem C6_witness :
    ("hsa00010".toList.any isNumericChar = true) ∧
    genericMapCode "hsa00010" =
      .ok ("map" ++ pySliceFrom "hsa00010" ("hsa00010".toList.findIdx isNumericChar)) ∧
    genericMapCode "hsa00010" = .ok "map00010" :=
  ⟨by decide, (C6_generic_map_code_first_digit_suffix "hsa00010" (by decide)).1, rfl⟩

/-- Claim C7: every Term emitted by the Joiner carries exactly one
species-specific edge — pointing at the reference-map identifier derived
from its own identifier — and exactly one in-KEGG-taxon edge pointing at
the Reference of its genome, and its species attribute is present exactly
when the genome has a known taxonomy id. -/
theorem C7_term_edge_invariants (ll kl : List String) (g : KEGGGenome)
    (log : List String) (ts : List Term)
    (h : _iter_genome_terms ll kl g = (log, .ok ts)) :
    ∀ t ∈ ts, ∃ mc,
      genericMapCode t.reference.identifier = .ok mc ∧
      t.relationships.filter (fun p => p.1 == species_specific) =
        [(species_specific, { pfx := keggPathwayPfx, identifier := mc, name := none })] ∧
      t.relationships.filter (fun p => p.1 == from_kegg_species) =
        [(from_kegg_species, g.get_reference)] ∧
      (t.species.isSome ↔ g.taxonomy_id.isSome) := by
  intro t ht
  rcases (genomeTerms_struct h).2 t ht with ⟨t₀, ps, hg, heq, _, _⟩
  rcases goodTerm_parts ps hg with ⟨_, hsp, _, mc, hmc, hss, hfks⟩
  subst heq
  exact ⟨mc, hmc, hss, hfks, by rw [hsp]⟩

/-- Witness for C7 at a concrete genome without a taxonomy id. -/
theorem C7_witness :
    _iter_genome_terms ["path:xyz00020\tCitrate cycle"] [] genomeXyz = ([], .ok [termXyz00020]) ∧
    ∃ mc,
      genericMapCode termXyz00020.reference.identifier = .ok mc ∧
      termXyz00020.relationships.filter (fun p => p.1 == species_specific) =
        [(species_specific, { pfx := keggPathwayPfx, identifier := mc, name := none })] ∧
      termXyz00020.relationships.filter (fun p => p.1 == from_kegg_species) =
        [(from_kegg_species, genomeXyz.get_reference)] ∧
      (termXyz00020.species.isSome ↔ genomeXyz.taxonomy_id.isSome) :=
  ⟨rfl, C7_term_edge_invariants ["path:xyz00020\tCitrate cycle"] [] genomeXyz
    [] [termXyz00020] rfl termXyz00020 (List.mem_singleton.mpr rfl)⟩

/-- Claim C8: the assembled sequence is the Map Loader terms followed by
the per-genome terms, in that order; and the Map Loader yields one
identity-only Term per catalog entry, in catalog order, with no
relationships and no species attribute. -/
theorem C8_assembly_concatenation_and_identity_maps
    (catalog : List (String × String)) (genomes : List (KEGGGenome × FetchResult))
    (log : List String) (ts : List Term)
    (h : iter_terms catalog genomes = (log, .ok ts)) :
    ∃ glog rest,
      runGenomes (iter_kegg_pathway_paths genomes).1 = (glog, .ok rest) ∧
      ts = _iter_map_terms catalog ++ rest ∧
      (_iter_map_terms catalog).map Term.reference =
        catalog.map (fun kv => { pfx := keggPathwayPfx, identifier := kv.1, name := some kv.2 }) ∧
      ∀ t ∈ _iter_map_terms catalog, t.relationships = [] ∧ t.species = none := by
  unfold iter_terms at h
  dsimp only at h
  rcases hr : runGenomes (iter_kegg_pathway_paths genomes).1 with ⟨glog, res⟩
  rw [hr] at h
  cases res with
  | error e =>
    dsimp only at h
    exact Except.noConfusion (congrArg Prod.snd h)
  | ok rest =>
    dsimp only at h
    have hts := congrArg Prod.snd h
    simp only [Except.ok.injEq] at hts
    refine ⟨glog, rest, rfl, hts.symm, ?_, ?_⟩
    · simp only [_iter_map_terms, List.map_map]
      rfl
    · intro t ht
      rcases List.mem_map.mp ht with ⟨kv, _, heq⟩
      rw [← heq]
      exact ⟨rfl, rfl⟩

/-- Witness for C8 with a one-entry catalog and one genome. -/
theorem C8_witness :
    iter_terms [("map00030", "Pentose phosphate pathway")]
      [(genomeEco, FetchResult.ok ["path:eco00020\tCitrate cycle (TCA cycle)"]
        ["b0114\tpath:eco00020"])] = ([], .ok [termMap00030, termEco00020]) ∧
    ∃ glog rest,
      runGenomes (iter_kegg_pathway_paths
        [(genomeEco, FetchResult.ok ["path:eco00020\tCitrate cycle (TCA cycle)"]
          ["b0114\tpath:eco00020"])]).1 = (glog, .ok rest) ∧
      [termMap00030, termEco00020] =
        _iter_map_terms [("map00030", "Pentose phosphate pathway")] ++ rest ∧
      (_iter_map_terms [("map00030", "Pentose phosphate pathway")]).map Term.reference =
        [("map00030", "Pentose phosphate pathway")].map
          (fun kv => { pfx := keggPathwayPfx, identifier := kv.1, name := some kv.2 }) ∧
      ∀ t ∈ _iter_map_terms [("map00030", "Pentose phosphate pathway")],
        t.relationships = [] ∧ t.species = none :=
  ⟨rfl, C8_assembly_concatenation_and_identity_maps
    [("map00030", "Pentose phosphate pathway")]
    [(genomeEco, FetchResult.ok ["path:eco00020\tCitrate cycle (TCA cycle)"]
      ["b0114\tpath:eco00020"])] [] [termMap00030, termEco00020] rfl⟩

/-- Claim C9: prefix stripping in both parsers discards exactly the first
5 characters of the code field unconditionally.  For a link line whose
code field does not begin with path:, the parse still succeeds and keys
the group by the truncated remainder; a listing line behaves the same
(when the truncated code has a digit so the later derivation also
succeeds), with the truncated remainder as the Term identifier. -/
theorem C9_prefix_stripping_unconditional (gene code : String) (g : KEGGGenome)
    (hgne : gene.toList ≠ []) (hcne : code.toList ≠ [])
    (hgw : ∀ c ∈ gene.toList, isPyWs c = false)
    (hcw : ∀ c ∈ code.toList, isPyWs c = false)
    (_hnp : (("path:" : String).toList.isPrefixOf code.toList) = false) :
    _get_link_pathway_map [gene ++ "\t" ++ code] =
      .ok [(pySliceFrom code 5, [pySliceFrom code 5])] ∧
    ∀ nm : String, nm.toList ≠ [] → (∀ c ∈ nm.toList, isPyWs c = false) →
      (pySliceFrom code 5).toList.any isNumericChar = true →
      ∃ t, termOfLine (code ++ "\t" ++ nm) g = .ok t ∧
        t.reference.identifier = pySliceFrom code 5 := by
  have hgt : '\t' ∉ gene.toList := no_tab_of_no_ws hgw
  have hct : '\t' ∉ code.toList := no_tab_of_no_ws hcw
  have hstrip := strip_line_pair hgne hcne hgw hcw
  have hsplit := pySplit_pair hgt hct
  constructor
  · unfold _get_link_pathway_map
    have hl : linkLinesToMap [gene ++ "\t" ++ code] [] =
        .ok [(pySliceFrom code 5, [pySliceFrom code 5])] := by
      simp only [linkLinesToMap, hstrip, hsplit]
      rfl
    rw [hl]
    rfl
  · intro nm hnne hnw hdig
    have hnt : '\t' ∉ nm.toList := no_tab_of_no_ws hnw
    have hstrip2 := strip_line_pair hcne hnne hcw hnw
    have hsplit2 := pySplit_pair hct hnt
    have hmap : (pySplit (pyStrip (code ++ "\t" ++ nm))).map pyStrip = [code, nm] := by
      rw [hstrip2, hsplit2]
      simp [pyStrip_eq_self hcw, pyStrip_eq_self hnw]
    cases hmc : genericMapCode (pySliceFrom code 5) with
    | error e =>
      rw [genericMapCode_of_any _ hdig] at hmc
      exact Except.noConfusion hmc
    | ok mc =>
      cases htax : g.taxonomy_id with
      | some tax =>
        refine Exists.intro
          { reference := { pfx := keggPathwayPfx, identifier := pySliceFrom code 5, name := some nm },
            relationships := [(species_specific, { pfx := keggPathwayPfx, identifier := mc, name := none }),
              (from_kegg_species, g.get_reference)],
            species := some tax } ⟨?_, rfl⟩
        unfold termOfLine
        rw [hmap]
        dsimp only
        rw [hmc, htax]
        rfl
      | none =>
        refine Exists.intro
          { reference := { pfx := keggPathwayPfx, identifier := pySliceFrom code 5, name := some nm },
            relationships := [(species_specific, { pfx := keggPathwayPfx, identifier := mc, name := none }),
              (from_kegg_species, g.get_reference)],
            species := none } ⟨?_, rfl⟩
        unfold termOfLine
        rw [hmap]
        dsimp only
        rw [hmc, htax]
        rfl

/-- Witness for C9 with a code field that does not begin with path:. -/
theorem C9_witness :
    _get_link_pathway_map ["eco:b0001" ++ "\t" ++ "notpath00010"] =
      .ok [(pySliceFrom "notpath00010" 5, [pySliceFrom "notpath00010" 5])] ∧
    pySliceFrom "notpath00010" 5 = "th00010" ∧
    ∃ t, termOfLine ("notpath00010" ++ "\t" ++ "GlycolysisX") genomeEco = .ok t ∧
      t.reference.identifier = pySliceFrom "notpath00010" 5 := by
  have h := C9_prefix_stripping_unconditional "eco:b0001" "notpath00010" genomeEco
    (by decide) (by decide) (by decide) (by decide) (by decide)
  exact ⟨h.1, by decide, h.2 "GlycolysisX" (by decide) (by decide) (by decide)⟩

/-- Claim C10: when listing lines share one stripped pathway code, the
later line replaces the earlier Term in the per-genome mapping, so the
output has pairwise distinct identifiers and every output Term — its
appended has-part edges set aside — is exactly the Term parsed from the
LAST listing line with its code; the earlier Term and its relationships
are never emitted. -/
theorem C10_duplicate_listing_last_occurrence_wins (ll kl : List String) (g : KEGGGenome)
    (log : List String) (ts : List Term)
    (h : _iter_genome_terms ll kl g = (log, .ok ts)) :
    (ts.map (fun t => t.reference.identifier)).Nodup ∧
    ∀ t ∈ ts, ∃ line,
      ((ll.map pyStrip).filter (fun l => parsedId l == some t.reference.identifier)).getLast? =
        some line ∧
      termOfLine line g = .ok (stripHasPart t) := by
  obtain ⟨hnd, hstruct⟩ := genomeTerms_struct h
  refine ⟨hnd, ?_⟩
  intro t ht
  rcases hstruct t ht with ⟨t₀, ps, hg, heq, _, hlast⟩
  have hstrip : stripHasPart t = t₀ := by
    rw [heq]
    exact (goodTerm_parts ps hg).2.2.1
  unfold lastTermFor at hlast
  rcases Option.bind_eq_some.mp hlast with ⟨line, hline, htoopt⟩
  refine ⟨line, hline, ?_⟩
  rw [hstrip]
  exact except_toOption_ok htoopt

/-- Witness for C10: two listing lines with the code sce00010; the
emitted Term is built from the second line (name Glycolysis new) and the
last filtered line is that second line. -/
theorem C10_witness :
    _iter_genome_terms ["path:sce00010\tGlycolysis old", "path:sce00010\tGlycolysis new"] [] genomeSce =
      ([], .ok [termSce00010]) ∧
    (∃ line,
      (((["path:sce00010\tGlycolysis old", "path:sce00010\tGlycolysis new"]).map pyStrip).filter
        (fun l => parsedId l == some termSce00010.reference.identifier)).getLast? = some line ∧
      termOfLine line genomeSce = .ok (stripHasPart termSce00010)) ∧
    termOfLine "path:sce00010\tGlycolysis new" genomeSce = .ok termSce00010 :=
  ⟨rfl,
   (C10_duplicate_listing_last_occurrence_wins
     ["path:sce00010\tGlycolysis old", "path:sce00010\tGlycolysis new"] [] genomeSce
     [] [termSce00010] rfl).2 termSce00010 (List.mem_singleton.mpr rfl),
   rfl⟩
